import Mathlib

/-!
Verification of the audio streaming and playback scheduling core of the
voice-assistant repository.  The JavaScript sources are shallowly embedded:
audio samples are rationals (float32 samples and their products with the
16-bit scale factors are exact in double precision, so `ℚ` is faithful),
typed-array stores follow the ECMAScript ToInt16/ToUint16/ToUint32
conversions (truncation toward zero, then wrap-around), and the stateful
playback engine is modelled by explicit state records with the audio clock
passed in as a value.
-/

namespace VoiceAssistant

/-- ECMAScript ToInteger on an exact numeric value: truncation toward zero
(`Math.trunc`).  Used by every typed-array store in the sources. -/
def ratTrunc (q : ℚ) : ℤ :=
  if 0 ≤ q then ⌊q⌋ else ⌈q⌉

/-- ECMAScript ToInt16 applied when a number is stored into an `Int16Array`
(as in `pcmBuffer[i] = ...` in the capture callbacks): truncate toward zero,
reduce modulo 2^16, and reinterpret as a signed 16-bit value. -/
def toInt16 (q : ℚ) : ℤ :=
  if ratTrunc q % 65536 < 32768 then ratTrunc q % 65536 else ratTrunc q % 65536 - 65536

/-- ECMAScript ToUint16 (used by `DataView.setUint16`). -/
def toUint16 (q : ℚ) : ℕ :=
  (ratTrunc q % 65536).toNat

/-- ECMAScript ToUint32 (used by `DataView.setUint32`). -/
def toUint32 (q : ℚ) : ℕ :=
  (ratTrunc q % 4294967296).toNat

/-- `Math.max(-1, Math.min(1, s))` — the clamp applied to every captured
sample in `voice-assistant.js` (`scriptProcessorNode.onaudioprocess`),
`audio-processor.js` (`AudioInputProcessor.process`) and `pcm-processor.js`
(`PCMProcessor.process`). -/
def clamp (s : ℚ) : ℚ :=
  max (-1) (min 1 s)

/-- The quantizer of `voice-assistant.js` lines 317–318 (and identically
`audio-processor.js` lines 32–33):
`const s = Math.max(-1, Math.min(1, x)); pcm[i] = s < 0 ? s * 0x8000 : s * 0x7FFF;`
with the store into an `Int16Array`. -/
def quantizeSample (s : ℚ) : ℤ :=
  toInt16 (if clamp s < 0 then clamp s * 32768 else clamp s * 32767)

/-- The quantizer of `pcm-processor.js` line 30:
`Math.max(-1, Math.min(1, inputChannel[i])) * 0x7FFF` stored into an
`Int16Array` — note the single symmetric scale factor `0x7FFF`. -/
def quantizeSamplePCM (s : ℚ) : ℤ :=
  toInt16 (clamp s * 32767)

/-- The quantization described by the spec's words: clamp, then scale by
`0x7FFF` for non-negative samples and by `0x8000` for negative samples,
truncating to an integer (no wrap-around: the spec presents the result as
the 16-bit value itself). -/
def specAsymQuantize (s : ℚ) : ℤ :=
  if s < 0 then ratTrunc (clamp s * 32768) else ratTrunc (clamp s * 32767)

/-- Symmetric `0x7FFF` scaling (what `pcm-processor.js` actually computes),
written in the spec's style for comparison. -/
def specSymQuantize (s : ℚ) : ℤ :=
  ratTrunc (clamp s * 32767)

/-- Little-endian byte encoding of a 16-bit value (`DataView.setUint16`
with `littleEndian = true` writes exactly these two bytes). -/
def u16le (n : ℕ) : List ℕ :=
  [n % 256, n / 256 % 256]

/-- Little-endian byte encoding of a 32-bit value (`DataView.setUint32`
with `littleEndian = true` writes exactly these four bytes). -/
def u32le (n : ℕ) : List ℕ :=
  [n % 256, n / 256 % 256, n / 65536 % 256, n / 16777216 % 256]

/-- Overwrite the bytes of `buf` starting at `off` with `bs` — the effect
of a sequence of byte stores into an `ArrayBuffer` through a `DataView`
(all stores in the sources are in range). -/
def writeBytes : List ℕ → ℕ → List ℕ → List ℕ
  | buf, _, [] => buf
  | [], _, _ :: _ => []
  | _ :: buf, 0, v :: vs => v :: writeBytes buf 0 vs
  | b :: buf, o + 1, vs => b :: writeBytes buf o vs

/-- `view.setUint16(off, q, true)` on the modelled buffer. -/
def setUint16 (buf : List ℕ) (off : ℕ) (q : ℚ) : List ℕ :=
  writeBytes buf off (u16le (toUint16 q))

/-- `view.setUint32(off, q, true)` on the modelled buffer. -/
def setUint32 (buf : List ℕ) (off : ℕ) (q : ℚ) : List ℕ :=
  writeBytes buf off (u32le (toUint32 q))

/-- `createWavHeader(dataLength, sampleRate, numChannels = 1, bitsPerSample = 16)`
from `voice-assistant.js` lines 955–981 (textually identical in
`src/unnamed/part_001` lines 1119–1145): a fresh zeroed 44-byte
`ArrayBuffer` written through a `DataView` at fixed offsets, `writeString`
storing the ASCII codes of the four-character tags byte by byte. -/
def createWavHeader (dataLength sampleRate numChannels bitsPerSample : ℕ) : List ℕ :=
  let blockAlign : ℚ := (numChannels : ℚ) * (bitsPerSample : ℚ) / 8
  let byteRate : ℚ := (sampleRate : ℚ) * blockAlign
  let b0 := List.replicate 44 0
  let b1 := writeBytes b0 0 [82, 73, 70, 70]
  let b2 := setUint32 b1 4 ((36 : ℚ) + (dataLength : ℚ))
  let b3 := writeBytes b2 8 [87, 65, 86, 69]
  let b4 := writeBytes b3 12 [102, 109, 116, 32]
  let b5 := setUint32 b4 16 16
  let b6 := setUint16 b5 20 1
  let b7 := setUint16 b6 22 (numChannels : ℚ)
  let b8 := setUint32 b7 24 (sampleRate : ℚ)
  let b9 := setUint32 b8 28 byteRate
  let b10 := setUint16 b9 32 blockAlign
  let b11 := setUint16 b10 34 (bitsPerSample : ℚ)
  let b12 := writeBytes b11 36 [100, 97, 116, 97]
  setUint32 b12 40 (dataLength : ℚ)

/-- `createWavHeader(dataLength, sampleRate)` from `src/unnamed/part_000`
lines 310–334: the mono/16-bit variant with the channel count, byte rate
(`sampleRate * 2`), block alignment (`2`) and bit depth hard-coded. -/
def createWavHeaderP000 (dataLength sampleRate : ℕ) : List ℕ :=
  let b0 := List.replicate 44 0
  let b1 := writeBytes b0 0 [82, 73, 70, 70]
  let b2 := setUint32 b1 4 ((36 : ℚ) + (dataLength : ℚ))
  let b3 := writeBytes b2 8 [87, 65, 86, 69]
  let b4 := writeBytes b3 12 [102, 109, 116, 32]
  let b5 := setUint32 b4 16 16
  let b6 := setUint16 b5 20 1
  let b7 := setUint16 b6 22 1
  let b8 := setUint32 b7 24 (sampleRate : ℚ)
  let b9 := setUint32 b8 28 ((sampleRate : ℚ) * 2)
  let b10 := setUint16 b9 32 2
  let b11 := setUint16 b10 34 16
  let b12 := writeBytes b11 36 [100, 97, 116, 97]
  setUint32 b12 40 (dataLength : ℚ)

/-- A playback segment: an audio source scheduled at `start` on the shared
`AudioContext` clock with the decoded buffer's `duration` (the
`{ source, startTime, duration }` records pushed onto `audioBufferQueue`). -/
structure Seg where
  start : ℚ
  duration : ℚ
deriving DecidableEq

/-- The scheduler state shared by the playback engines: the ordered list of
segments scheduled so far in the current response and the module-level
`nextPlayTime` clock. -/
structure SchedState where
  segs : List Seg
  nextPlayTime : ℚ
deriving DecidableEq

/-- The scheduling step of `playNextAudioChunk` (src/unnamed/part_001 lines
964–987): `startTime = (nextPlayTime > currentTime) ? nextPlayTime :
currentTime`, push `{source, startTime, duration}` onto `audioBufferQueue`,
`source.start(startTime)`, then `nextPlayTime = startTime + duration`.
`now` is `audioContext.currentTime` at the moment of the call. -/
def playNextSchedule (st : SchedState) (now dur : ℚ) : SchedState :=
  let startTime := if st.nextPlayTime > now then st.nextPlayTime else now
  { segs := st.segs ++ [⟨startTime, dur⟩], nextPlayTime := startTime + dur }

/-- A whole response on the part_001 engine: one schedule step per decoded
group, each with the clock reading and decoded duration at that step. -/
def playNextRun (st : SchedState) (calls : List (ℚ × ℚ)) : SchedState :=
  calls.foldl (fun s c => playNextSchedule s c.1 c.2) st

/-- `scheduleAudioBuffer` from `voice-assistant.js` lines 581–601: returns
early when the decoded duration is not positive, otherwise schedules at
`nextPlayTime` (never consulting the audio clock) and advances
`nextPlayTime` by the duration. -/
def scheduleAudioBuffer (st : SchedState) (dur : ℚ) : SchedState :=
  if dur ≤ 0 then st
  else { segs := st.segs ++ [⟨st.nextPlayTime, dur⟩], nextPlayTime := st.nextPlayTime + dur }

/-- `startProgressivePlayback` clock initialisation (`voice-assistant.js`
lines 502–505): `if (nextPlayTime === 0) nextPlayTime = audioContext.currentTime`. -/
def startProgressivePlayback (st : SchedState) (now : ℚ) : SchedState :=
  if st.nextPlayTime = 0 then { st with nextPlayTime := now } else st

/-- A whole response on the voice-assistant.js engine: one
`scheduleAudioBuffer` call per decoded group. -/
def scheduleRun (st : SchedState) (durs : List ℚ) : SchedState :=
  durs.foldl scheduleAudioBuffer st

/-- The ideal gapless timeline: segments chained back to back starting at
`s` with the given durations. -/
def chainSegs (s : ℚ) : List ℚ → List Seg
  | [] => []
  | d :: ds => ⟨s, d⟩ :: chainSegs (s + d) ds

/-- Scheduled intervals are contiguous:
`start[i] = start[i-1] + duration[i-1]` for every adjacent pair. -/
def contiguous : List Seg → Prop
  | a :: b :: rest => b.start = a.start + a.duration ∧ contiguous (b :: rest)
  | _ => True

/-- Segment `g` is audible at clock instant `q`. -/
def playingAt (q : ℚ) (g : Seg) : Prop :=
  g.start ≤ q ∧ q < g.start + g.duration

/-- The decode loop keeps up with playback: every schedule call happens
while the audio clock has not yet passed the engine's `nextPlayTime`. -/
def keepsUp : ℚ → List (ℚ × ℚ) → Prop
  | _, [] => True
  | npt, (t, d) :: rest => t ≤ npt ∧ keepsUp (npt + d) rest

/-- The per-block body of `PCMProcessor.process` (pcm-processor.js lines
29–44): each incoming sample is quantized and appended to the fixed-size
accumulator (`_buffer` up to `_bufferIndex` — modelled as the filled
prefix); whenever the index reaches `BUFFER_SIZE = 4096` the full buffer is
posted as one chunk and the index resets.  Returns the accumulator after
the block together with the chunks emitted during it, in order. -/
def pcmProcessBlock : List ℤ → List ℚ → List ℤ × List (List ℤ)
  | st, [] => (st, [])
  | st, s :: rest =>
    if 4096 ≤ (st ++ [quantizeSamplePCM s]).length then
      ((pcmProcessBlock [] rest).1, (st ++ [quantizeSamplePCM s]) :: (pcmProcessBlock [] rest).2)
    else
      pcmProcessBlock (st ++ [quantizeSamplePCM s]) rest

/-- A capture session: successive `process` callbacks, each delivering one
input block; chunks accumulate across callbacks in emission order. -/
def pcmProcessRun : List ℤ → List (List ℚ) → List ℤ × List (List ℤ)
  | st, [] => (st, [])
  | st, b :: bs =>
    ((pcmProcessRun (pcmProcessBlock st b).1 bs).1,
     (pcmProcessBlock st b).2 ++ (pcmProcessRun (pcmProcessBlock st b).1 bs).2)

/-- Total number of samples across the emitted chunks. -/
def sumLens (cs : List (List ℤ)) : ℕ :=
  (cs.map List.length).sum

/-- Estimated duration in milliseconds of a queued chunk of `bytes` bytes
(src/unnamed/part_001 line 940):
`(buffer.byteLength / (2 * EXPECTED_SAMPLE_RATE)) * 1000` with
`EXPECTED_SAMPLE_RATE = 24000`. -/
def chunkDurMs (bytes : ℕ) : ℚ :=
  (bytes : ℚ) / (2 * 24000) * 1000

/-- Total estimated duration of a group of chunks. -/
def durMsSum (g : List ℕ) : ℚ :=
  (g.map chunkDurMs).sum

/-- The grouping loop of `playNextAudioChunk` (src/unnamed/part_001 lines
929–941): `while (queue.length > 0 && taken < 3 && accMs < 300)` shift the
next chunk, counting its estimated duration.  Returns the group taken for
this decode call and the remaining queue; chunks are identified by their
byte lengths (the only attribute the loop inspects). -/
def playNextGroupGo : List ℕ → ℕ → ℚ → List ℕ × List ℕ
  | [], _, _ => ([], [])
  | b :: rest, cnt, acc =>
    if cnt < 3 ∧ acc < 300 then
      (b :: (playNextGroupGo rest (cnt + 1) (acc + chunkDurMs b)).1,
       (playNextGroupGo rest (cnt + 1) (acc + chunkDurMs b)).2)
    else ([], b :: rest)

/-- One decode call's pull from the ingestion queue (part_001 engine). -/
def playNextGroup (q : List ℕ) : List ℕ × List ℕ :=
  playNextGroupGo q 0 0

/-- Successive decode calls of the part_001 engine draining a settled queue
(all chunks arrived, then the end-of-stream marker); the fuel argument only
bounds the recursion and is instantiated with the queue length. -/
def playNextDrain : ℕ → List ℕ → List (List ℕ)
  | 0, _ => []
  | _ + 1, [] => []
  | fuel + 1, b :: rest =>
    (playNextGroup (b :: rest)).1 :: playNextDrain fuel (playNextGroup (b :: rest)).2

/-- One decode call's pull in `processNextAudioChunks` (voice-assistant.js
lines 526–534): `maxChunksToProcess = Math.min(audioQueue.length, 3)`
chunks are shifted, with no duration bound. -/
def processNextGroup (q : List ℕ) : List ℕ × List ℕ :=
  (q.take 3, q.drop 3)

/-- Successive decode calls of the voice-assistant.js engine draining a
settled queue. -/
def processNextDrain : ℕ → List ℕ → List (List ℕ)
  | 0, _ => []
  | _ + 1, [] => []
  | fuel + 1, b :: rest =>
    (processNextGroup (b :: rest)).1 :: processNextDrain fuel (processNextGroup (b :: rest)).2

/-- The module-level playback/recording state of `voice-assistant.js`
relevant to interruption and error handling (`audioQueue`,
`audioBufferQueue`, `isPlayingQueue`, `nextPlayTime`, `audioStreamEnded`,
`isRecording`); queued inbound chunks are byte buffers. -/
structure VAState where
  audioQueue : List (List ℕ)
  audioBufferQueue : List Seg
  isPlayingQueue : Bool
  nextPlayTime : ℚ
  audioStreamEnded : Bool
  isRecording : Bool
deriving DecidableEq

/-- Result of a cleanup entry point: the new state, the segments whose
sources received a `stop()` call (stopping an already-finished source
throws and is swallowed by the surrounding try/catch, so issuing the call
is always safe), and the protocol events emitted to the socket. -/
structure InterruptResult where
  state : VAState
  stopped : List Seg
  emitted : List String
deriving DecidableEq

/-- `interruptModel` from `voice-assistant.js` lines 234–272: stop every
source in `audioBufferQueue`, clear `audioQueue` and `audioBufferQueue`,
reset `isPlayingQueue`, `nextPlayTime` and `audioStreamEnded`, and emit
`interrupt_response` when the socket is connected.  The trailing
`startRecording()` call (microphone acquisition) is outside the playback
model; its own `resetAudioPlayback`/`stopAudioPlayback` calls leave the
already-reset playback fields unchanged. -/
def interruptModel (connected : Bool) (st : VAState) : InterruptResult :=
  { state := { audioQueue := [], audioBufferQueue := [], isPlayingQueue := false,
               nextPlayTime := 0, audioStreamEnded := false, isRecording := st.isRecording },
    stopped := st.audioBufferQueue,
    emitted := if connected then ["interrupt_response"] else [] }

/-- `stopAudioPlayback` from `voice-assistant.js` lines 633–651: stop every
source in `audioBufferQueue` (returned as the stopped list), then clear the
queue, zero `nextPlayTime` and reset `isPlayingQueue`. -/
def stopAudioPlayback (st : VAState) : VAState × List Seg :=
  ({ st with audioBufferQueue := [], nextPlayTime := 0, isPlayingQueue := false },
   st.audioBufferQueue)

/-- `resetAudioPlayback` from `voice-assistant.js` lines 654–676: clear
`audioQueue`, `audioBufferQueue` and the flags/clock/counters FIRST, and
only then call `stopAudioPlayback` — which therefore iterates an
already-empty `audioBufferQueue`. -/
def resetAudioPlayback (st : VAState) : VAState × List Seg :=
  stopAudioPlayback
    { st with
        audioQueue := [], audioBufferQueue := [], isPlayingQueue := false,
        audioStreamEnded := false, nextPlayTime := 0 }

/-- `stopRecording` from `voice-assistant.js` lines 360–402: tear down the
capture nodes, emit `stop_recording` when the socket is connected and a
recording was active, and clear `isRecording`. -/
def stopRecording (connected : Bool) (st : VAState) : VAState × List String :=
  ({ st with isRecording := false },
   if connected && st.isRecording then ["stop_recording"] else [])

/-- `handleError` from `voice-assistant.js` lines 796–816 (the
`processing_error` handler): `resetAudioPlayback()` then `stopRecording()`
— and no protocol event other than the `stop_recording` that
`stopRecording` itself may emit. -/
def handleError (connected : Bool) (st : VAState) : InterruptResult :=
  { state := (stopRecording connected (resetAudioPlayback st).1).1,
    stopped := (resetAudioPlayback st).2,
    emitted := (stopRecording connected (resetAudioPlayback st).1).2 }

/-- The state of the `src/unnamed/part_002` client: a single playing
source (`audioPlayingSource`), the inbound queue, and the `canInterrupt`
cooldown flag. -/
structure P002State where
  audioQueue : List (List ℕ)
  isPlayingQueue : Bool
  audioPlayingSource : Option Seg
  canInterrupt : Bool
deriving DecidableEq

/-- `stopAudioPlayback` from `src/unnamed/part_002` lines 393–405: stop the
single playing source if present and clear it. -/
def stopAudioPlaybackP002 (st : P002State) : P002State × List Seg :=
  ({ st with audioPlayingSource := none, isPlayingQueue := false },
   match st.audioPlayingSource with
   | some g => [g]
   | none => [])

/-- `interruptModel` from `src/unnamed/part_002` lines 162–185: refuse when
inside the 2-second cooldown; otherwise stop playback, clear the queue and
arm the cooldown.  It never emits `interrupt_response` (the trailing
`startRecording()` is outside the playback model, as for voice-assistant.js). -/
def interruptModelP002 (st : P002State) : P002State × List Seg × List String :=
  if st.canInterrupt then
    ({ (stopAudioPlaybackP002 st).1 with
          audioQueue := [], isPlayingQueue := false, canInterrupt := false },
     (stopAudioPlaybackP002 st).2, [])
  else (st, [], [])

/-- The base64 alphabet used by the browser's `btoa`/`atob` builtins
(RFC 4648). -/
def b64Alphabet : List Char :=
  "ABCDEFGHIJKLMNOPQRSTUVWXYZabcdefghijklmnopqrstuvwxyz0123456789+/".data

/-- Character for a 6-bit value. -/
def b64Char (n : ℕ) : Char :=
  b64Alphabet.getD n 'A'

/-- 6-bit value of a base64 character (what `atob` recovers). -/
def b64Value (c : Char) : ℕ :=
  b64Alphabet.indexOf c

/-- `arrayBufferToBase64Sync` (voice-assistant.js lines 945–953, identical
`arrayBufferToBase64` in src/unnamed/part_000 and part_001): build a binary
string whose character codes are the buffer's bytes
(`String.fromCharCode`) and apply the browser's `btoa` — standard base64:
each 3-byte group becomes 4 alphabet characters; a trailing 2-byte group
becomes 3 characters plus `=`; a trailing single byte becomes 2 characters
plus `==`. -/
def btoaBytes : List (Fin 256) → List Char
  | [] => []
  | [b0] => [b64Char (b0.val / 4), b64Char (b0.val % 4 * 16), '=', '=']
  | [b0, b1] => [b64Char (b0.val / 4), b64Char (b0.val % 4 * 16 + b1.val / 16),
                 b64Char (b1.val % 16 * 4), '=']
  | b0 :: b1 :: b2 :: rest =>
      b64Char (b0.val / 4) :: b64Char (b0.val % 4 * 16 + b1.val / 16) ::
      b64Char (b1.val % 16 * 4 + b2.val / 64) :: b64Char (b2.val % 64) :: btoaBytes rest

/-- Quad-wise reassembly of bytes from padding-stripped base64 characters
(the browser's `atob`). -/
def atobQuads : List Char → List (Fin 256)
  | c0 :: c1 :: c2 :: c3 :: rest =>
      ⟨(b64Value c0 * 4 + b64Value c1 / 16) % 256, Nat.mod_lt _ (by norm_num)⟩ ::
      ⟨(b64Value c1 % 16 * 16 + b64Value c2 / 4) % 256, Nat.mod_lt _ (by norm_num)⟩ ::
      ⟨(b64Value c2 % 4 * 64 + b64Value c3) % 256, Nat.mod_lt _ (by norm_num)⟩ ::
      atobQuads rest
  | [c0, c1] => [⟨(b64Value c0 * 4 + b64Value c1 / 16) % 256, Nat.mod_lt _ (by norm_num)⟩]
  | [c0, c1, c2] =>
      [⟨(b64Value c0 * 4 + b64Value c1 / 16) % 256, Nat.mod_lt _ (by norm_num)⟩,
       ⟨(b64Value c1 % 16 * 16 + b64Value c2 / 4) % 256, Nat.mod_lt _ (by norm_num)⟩]
  | _ => []

/-- The inbound decode of `handleAudioChunk` (voice-assistant.js lines
422–427): `atob(data.audio)` followed by per-character `charCodeAt` into a
`Uint8Array` — i.e. strip the `=` padding and reassemble the 6-bit values
quad by quad. -/
def handleAudioChunkDecode (s : List Char) : List (Fin 256) :=
  atobQuads (s.filter (fun c => c != '='))

lemma ratTrunc_intCast (n : ℤ) : ratTrunc (n : ℚ) = n := by
  unfold ratTrunc
  rcases le_or_lt 0 (n : ℚ) with h | h
  · rw [if_pos h, Int.floor_intCast]
  · rw [if_neg (not_le.mpr h), Int.ceil_intCast]

lemma ratTrunc_natCast (n : ℕ) : ratTrunc (n : ℚ) = n := by
  have := ratTrunc_intCast (n : ℤ)
  rwa [Int.cast_natCast] at this

lemma toInt16_intCast {n : ℤ} (h1 : -32768 ≤ n) (h2 : n ≤ 32767) :
    toInt16 (n : ℚ) = n := by
  unfold toInt16
  rw [ratTrunc_intCast]
  omega

lemma clamp_le_one (s : ℚ) : clamp s ≤ 1 := by
  unfold clamp
  exact max_le (by norm_num) (min_le_left _ _)

lemma neg_one_le_clamp (s : ℚ) : -1 ≤ clamp s := le_max_left _ _

lemma clamp_neg_iff (s : ℚ) : clamp s < 0 ↔ s < 0 := by
  unfold clamp
  rcases le_or_lt s (-1) with h | h
  · constructor
    · intro _; linarith
    · intro _
      have hmin : min 1 s = s := min_eq_right (by linarith)
      rw [hmin, max_eq_left (by linarith)]
      linarith
  · rcases le_or_lt 1 s with h1 | h1
    · rw [min_eq_left h1, max_eq_right (by norm_num)]
      constructor <;> intro <;> linarith
    · rw [min_eq_right (le_of_lt h1), max_eq_right (by linarith)]

lemma ratTrunc_nonneg_bounds {q : ℚ} (h0 : 0 ≤ q) (h1 : q ≤ 32767) :
    0 ≤ ratTrunc q ∧ ratTrunc q ≤ 32767 := by
  unfold ratTrunc
  rw [if_pos h0]
  constructor
  · exact Int.le_floor.mpr (by exact_mod_cast h0)
  · calc ⌊q⌋ ≤ ⌊(32767 : ℚ)⌋ := Int.floor_le_floor h1
    _ = 32767 := by norm_num

lemma ratTrunc_nonpos_bounds {q : ℚ} (h0 : q < 0) (h1 : -32768 ≤ q) :
    -32768 ≤ ratTrunc q ∧ ratTrunc q ≤ 0 := by
  unfold ratTrunc
  rw [if_neg (by linarith)]
  have hc : ((-32768 : ℤ) : ℚ) ≤ q := by exact_mod_cast h1
  constructor
  · calc (-32768 : ℤ) = ⌈((-32768 : ℤ) : ℚ)⌉ := (Int.ceil_intCast _).symm
    _ ≤ ⌈q⌉ := Int.ceil_le_ceil hc
  · exact Int.ceil_le.mpr (by exact_mod_cast le_of_lt h0)

lemma toInt16_eq_ratTrunc {q : ℚ} (hlo : -32768 ≤ ratTrunc q)
    (hhi : ratTrunc q ≤ 32767) : toInt16 q = ratTrunc q := by
  unfold toInt16
  omega

lemma quantizeSample_eq_spec (s : ℚ) : quantizeSample s = specAsymQuantize s := by
  unfold quantizeSample specAsymQuantize
  by_cases h : clamp s < 0
  · rw [if_pos h, if_pos ((clamp_neg_iff s).mp h)]
    have hlo : (-32768 : ℚ) ≤ clamp s * 32768 := by
      have := neg_one_le_clamp s
      nlinarith
    have hneg : clamp s * 32768 < 0 := by nlinarith
    obtain ⟨b1, b2⟩ := ratTrunc_nonpos_bounds hneg hlo
    exact toInt16_eq_ratTrunc b1 (by omega)
  · rw [if_neg h, if_neg (fun hs => h ((clamp_neg_iff s).mpr hs))]
    push_neg at h
    have hhi : clamp s * 32767 ≤ 32767 := by
      have := clamp_le_one s
      nlinarith
    have hnn : 0 ≤ clamp s * 32767 := by positivity
    obtain ⟨b1, b2⟩ := ratTrunc_nonneg_bounds hnn hhi
    exact toInt16_eq_ratTrunc (by omega) b2

lemma quantizeSamplePCM_eq_spec (s : ℚ) : quantizeSamplePCM s = specSymQuantize s := by
  unfold quantizeSamplePCM specSymQuantize
  by_cases h : clamp s < 0
  · have hlo : (-32768 : ℚ) ≤ clamp s * 32767 := by
      have := neg_one_le_clamp s
      nlinarith
    have hneg : clamp s * 32767 < 0 := by nlinarith
    obtain ⟨b1, b2⟩ := ratTrunc_nonpos_bounds hneg hlo
    exact toInt16_eq_ratTrunc b1 (by omega)
  · push_neg at h
    have hhi : clamp s * 32767 ≤ 32767 := by
      have := clamp_le_one s
      nlinarith
    have hnn : 0 ≤ clamp s * 32767 := by positivity
    obtain ⟨b1, b2⟩ := ratTrunc_nonneg_bounds hnn hhi
    exact toInt16_eq_ratTrunc (by omega) b2

lemma clamp_neg_one : clamp (-1) = -1 := by
  unfold clamp
  norm_num

lemma clamp_one : clamp 1 = 1 := by
  unfold clamp
  norm_num

lemma quantizeSamplePCM_neg_one : quantizeSamplePCM (-1) = -32767 := by
  unfold quantizeSamplePCM
  rw [clamp_neg_one, show ((-1 : ℚ) * 32767) = ((-32767 : ℤ) : ℚ) by norm_num]
  exact toInt16_intCast (by norm_num) (by norm_num)

/-- C4 (counterexample): the claim says every capture callback scales
negative samples by `0x8000`, so `-1.0` must map to `-0x8000 = -32768`.
`PCMProcessor.process` (pcm-processor.js line 30) scales by `0x7FFF` for
all samples, so `-1.0` maps to `-32767`. -/
theorem pcm_quantization_negative_counterexample :
    quantizeSamplePCM (-1) = -32767 ∧
    quantizeSamplePCM (-1) ≠ toInt16 (clamp (-1) * 32768) := by
  have h2 : toInt16 (clamp (-1) * 32768) = -32768 := by
    rw [clamp_neg_one, show ((-1 : ℚ) * 32768) = ((-32768 : ℤ) : ℚ) by norm_num]
    exact toInt16_intCast (by norm_num) (by norm_num)
  refine ⟨quantizeSamplePCM_neg_one, ?_⟩
  rw [quantizeSamplePCM_neg_one, h2]
  decide

/-- C4 (amended): samples are clamped to [-1, 1] and truncated to 16-bit
integers; the ScriptProcessor callback (voice-assistant.js) and
`AudioInputProcessor` (audio-processor.js) scale by `0x7FFF` when
non-negative and `0x8000` when negative (so `+1.0 ↦ 0x7FFF` and
`-1.0 ↦ -0x8000`), while `PCMProcessor` (pcm-processor.js) scales every
sample by `0x7FFF` (so `-1.0 ↦ -0x7FFF`). -/
theorem quantization_scaling_amended :
    (∀ s : ℚ, quantizeSample s = specAsymQuantize s) ∧
    (∀ s : ℚ, quantizeSamplePCM s = specSymQuantize s) ∧
    quantizeSample 1 = 32767 ∧
    quantizeSample (-1) = -32768 ∧
    quantizeSamplePCM (-1) = -32767 := by
  refine ⟨quantizeSample_eq_spec, quantizeSamplePCM_eq_spec, ?_, ?_, quantizeSamplePCM_neg_one⟩
  · unfold quantizeSample
    rw [if_neg (by rw [clamp_one]; norm_num), clamp_one,
      show ((1 : ℚ) * 32767) = ((32767 : ℤ) : ℚ) by norm_num]
    exact toInt16_intCast (by norm_num) (by norm_num)
  · unfold quantizeSample
    rw [if_pos (by rw [clamp_neg_one]; norm_num), clamp_neg_one,
      show ((-1 : ℚ) * 32768) = ((-32768 : ℤ) : ℚ) by norm_num]
    exact toInt16_intCast (by norm_num) (by norm_num)

lemma toUint32_natCast (n : ℕ) : toUint32 (n : ℚ) = n % 4294967296 := by
  unfold toUint32
  rw [ratTrunc_natCast]
  omega

lemma toUint16_natCast (n : ℕ) : toUint16 (n : ℚ) = n % 65536 := by
  unfold toUint16
  rw [ratTrunc_natCast]
  omega

lemma u32le_mod (n : ℕ) : u32le (n % 4294967296) = u32le n := by
  unfold u32le
  simp only [List.cons.injEq, and_true]
  omega

lemma u16le_mod (n : ℕ) : u16le (n % 65536) = u16le n := by
  unfold u16le
  simp only [List.cons.injEq, and_true]
  omega

/-- C3: for every data length, sample rate, channel count and bits per
sample, `createWavHeader` produces exactly 44 bytes in the documented
canonical linear-PCM layout: "RIFF", uint32 `36 + dataLength`, "WAVE",
"fmt ", uint32 16, uint16 1, uint16 channels, uint32 sample rate, uint32
byte rate (`sampleRate * blockAlign`), uint16 block alignment, uint16 bits
per sample, "data", uint32 `dataLength` — all multi-byte fields
little-endian.  The hard-coded variant of `src/unnamed/part_000` agrees
with the parameterised one at `numChannels = 1`, `bitsPerSample = 16`. -/
theorem createWavHeader_layout :
    ∀ (n sr ch bits : ℕ),
      createWavHeader n sr ch bits =
        [82, 73, 70, 70] ++ u32le (36 + n) ++ [87, 65, 86, 69] ++ [102, 109, 116, 32] ++
        u32le 16 ++ u16le 1 ++ u16le ch ++ u32le sr ++
        u32le (toUint32 ((sr : ℚ) * ((ch : ℚ) * (bits : ℚ) / 8))) ++
        u16le (toUint16 ((ch : ℚ) * (bits : ℚ) / 8)) ++ u16le bits ++
        [100, 97, 116, 97] ++ u32le n ∧
      (createWavHeader n sr ch bits).length = 44 ∧
      createWavHeaderP000 n sr = createWavHeader n sr 1 16 := by
  intro n sr ch bits
  have c1 : ((36 : ℚ) + (n : ℚ)) = ((36 + n : ℕ) : ℚ) := by push_cast; ring
  have c2 : ((16 : ℚ)) = ((16 : ℕ) : ℚ) := by norm_num
  have c3 : ((1 : ℚ)) = ((1 : ℕ) : ℚ) := by norm_num
  have hflat : createWavHeader n sr ch bits =
      [82, 73, 70, 70] ++ u32le (36 + n) ++ [87, 65, 86, 69] ++ [102, 109, 116, 32] ++
      u32le 16 ++ u16le 1 ++ u16le ch ++ u32le sr ++
      u32le (toUint32 ((sr : ℚ) * ((ch : ℚ) * (bits : ℚ) / 8))) ++
      u16le (toUint16 ((ch : ℚ) * (bits : ℚ) / 8)) ++ u16le bits ++
      [100, 97, 116, 97] ++ u32le n := by
    simp only [createWavHeader, setUint32, setUint16, c1, c2, c3,
      toUint32_natCast, toUint16_natCast, u32le_mod, u16le_mod]
    rfl
  refine ⟨hflat, by rw [hflat]; rfl, ?_⟩
  have h4 : ((1 : ℚ) * 16 / 8) = 2 := by norm_num
  simp only [createWavHeaderP000, createWavHeader, setUint32, setUint16,
    Nat.cast_one, Nat.cast_ofNat, h4]

lemma playNextSchedule_of_keepsUp {st : SchedState} {t d : ℚ} (h : t ≤ st.nextPlayTime) :
    playNextSchedule st t d =
      ⟨st.segs ++ [⟨st.nextPlayTime, d⟩], st.nextPlayTime + d⟩ := by
  unfold playNextSchedule
  rcases lt_or_le t st.nextPlayTime with hlt | hle
  · rw [if_pos hlt]
  · rw [if_neg (not_lt.mpr hle), le_antisymm h hle]

lemma playNextRun_eq_chain :
    ∀ (calls : List (ℚ × ℚ)) (st : SchedState), keepsUp st.nextPlayTime calls →
      playNextRun st calls =
        ⟨st.segs ++ chainSegs st.nextPlayTime (calls.map Prod.snd),
         st.nextPlayTime + (calls.map Prod.snd).sum⟩ := by
  intro calls
  induction calls with
  | nil =>
    intro st _
    simp [playNextRun, chainSegs]
  | cons c rest ih =>
    intro st hk
    obtain ⟨ht, hk'⟩ := hk
    have hstep := @playNextSchedule_of_keepsUp st c.1 c.2 ht
    have : playNextRun st (c :: rest) =
        playNextRun ⟨st.segs ++ [⟨st.nextPlayTime, c.2⟩], st.nextPlayTime + c.2⟩ rest := by
      simp only [playNextRun, List.foldl_cons]
      rw [hstep]
    rw [this, ih _ hk']
    simp [chainSegs, add_assoc]

lemma scheduleRun_eq_chain :
    ∀ (durs : List ℚ) (st : SchedState), (∀ d ∈ durs, 0 < d) →
      (scheduleRun st durs).segs = st.segs ++ chainSegs st.nextPlayTime durs := by
  intro durs
  induction durs with
  | nil =>
    intro st _
    simp [scheduleRun, chainSegs]
  | cons d rest ih =>
    intro st hpos
    have hd : 0 < d := hpos d (List.mem_cons_self d rest)
    have hstep : scheduleAudioBuffer st d =
        ⟨st.segs ++ [⟨st.nextPlayTime, d⟩], st.nextPlayTime + d⟩ := by
      unfold scheduleAudioBuffer
      rw [if_neg (not_le.mpr hd)]
    have : scheduleRun st (d :: rest) =
        scheduleRun ⟨st.segs ++ [⟨st.nextPlayTime, d⟩], st.nextPlayTime + d⟩ rest := by
      simp only [scheduleRun, List.foldl_cons]
      rw [hstep]
    rw [this, ih _ (fun x hx => hpos x (List.mem_cons_of_mem d hx))]
    simp [chainSegs]

lemma contiguous_chainSegs : ∀ (durs : List ℚ) (s : ℚ), contiguous (chainSegs s durs) := by
  intro durs
  induction durs with
  | nil => intro s; simp [chainSegs, contiguous]
  | cons d rest ih =>
    intro s
    cases rest with
    | nil => simp [chainSegs, contiguous]
    | cons d2 rest2 =>
      have := ih (s + d)
      simp only [chainSegs] at this ⊢
      exact ⟨rfl, this⟩

lemma chainSegs_start_le :
    ∀ (durs : List ℚ) (s : ℚ), (∀ d ∈ durs, 0 ≤ d) →
      ∀ g ∈ chainSegs s durs, s ≤ g.start := by
  intro durs
  induction durs with
  | nil => intro s _ g hg; simp [chainSegs] at hg
  | cons d rest ih =>
    intro s hnn g hg
    simp only [chainSegs, List.mem_cons] at hg
    rcases hg with rfl | hg
    · exact le_refl _
    · have hd : 0 ≤ d := hnn d (List.mem_cons_self d rest)
      have := ih (s + d) (fun x hx => hnn x (List.mem_cons_of_mem d hx)) g hg
      linarith

lemma chainSegs_pairwise :
    ∀ (durs : List ℚ) (s : ℚ), (∀ d ∈ durs, 0 ≤ d) →
      List.Pairwise (fun a b => a.start + a.duration ≤ b.start) (chainSegs s durs) := by
  intro durs
  induction durs with
  | nil => intro s _; simp [chainSegs]
  | cons d rest ih =>
    intro s hnn
    simp only [chainSegs]
    constructor
    · intro g hg
      exact chainSegs_start_le rest (s + d) (fun x hx => hnn x (List.mem_cons_of_mem d hx)) g hg
    · exact ih (s + d) (fun x hx => hnn x (List.mem_cons_of_mem d hx))

/-- C1 (counterexample): on the part_001 engine, when the audio clock
outruns `nextPlayTime` between two decode calls (first group scheduled at
clock 0 with duration 1/10 s, second decoded only at clock 1/2 s), the
second segment starts at 1/2, not at `0 + 1/10`: the scheduled intervals
have a gap, refuting `scheduledStart[1] = scheduledStart[0] + duration[0]`. -/
theorem scheduled_segments_gap_counterexample :
    (playNextRun ⟨[], 0⟩ [((0 : ℚ), 1/10), (1/2, 1/10)]).segs =
      [⟨0, 1/10⟩, ⟨1/2, 1/10⟩] ∧
    ¬ ((1 : ℚ)/2 = 0 + 1/10) := by
  constructor
  · norm_num [playNextRun, playNextSchedule]
  · norm_num

/-- C1 (amended): the scheduled segments form the gapless chained timeline
— hence contiguous and mutually non-overlapping — provided the engine
keeps up: on the part_001 engine every schedule call after the first must
happen before the audio clock passes `nextPlayTime`, while the
voice-assistant.js engine chains at `nextPlayTime` unconditionally. -/
theorem scheduled_segments_contiguous :
    (∀ (t0 d0 : ℚ) (rest : List (ℚ × ℚ)),
      0 ≤ t0 → keepsUp (t0 + d0) rest →
      (playNextRun ⟨[], 0⟩ ((t0, d0) :: rest)).segs =
        chainSegs t0 (d0 :: rest.map Prod.snd)) ∧
    (∀ (durs : List ℚ) (s0 : ℚ), (∀ d ∈ durs, 0 < d) →
      (scheduleRun ⟨[], s0⟩ durs).segs = chainSegs s0 durs) ∧
    (∀ (s0 : ℚ) (durs : List ℚ), contiguous (chainSegs s0 durs)) ∧
    (∀ (s0 : ℚ) (durs : List ℚ), (∀ d ∈ durs, 0 ≤ d) → ∀ q : ℚ,
      List.Pairwise (fun a b => ¬ (playingAt q a ∧ playingAt q b)) (chainSegs s0 durs)) := by
  refine ⟨?_, ?_, ?_, ?_⟩
  · intro t0 d0 rest h0 hk
    have hfirst : playNextSchedule ⟨[], 0⟩ t0 d0 = ⟨[⟨t0, d0⟩], t0 + d0⟩ := by
      unfold playNextSchedule
      rw [if_neg (not_lt.mpr h0)]
      rfl
    have : playNextRun ⟨[], 0⟩ ((t0, d0) :: rest) =
        playNextRun ⟨[⟨t0, d0⟩], t0 + d0⟩ rest := by
      simp only [playNextRun, List.foldl_cons]
      rw [hfirst]
    rw [this, playNextRun_eq_chain rest _ hk]
    simp [chainSegs]
  · intro durs s0 hpos
    have := scheduleRun_eq_chain durs ⟨[], s0⟩ hpos
    simpa using this
  · intro s0 durs
    exact contiguous_chainSegs durs s0
  · intro s0 durs hnn q
    refine (chainSegs_pairwise durs s0 hnn).imp ?_
    intro a b hle hboth
    obtain ⟨⟨_, ha2⟩, ⟨hb1, _⟩⟩ := hboth
    linarith

/-- C1 (witness): the amended theorem applied to a concrete keep-up run of
two unit-length groups. -/
theorem scheduled_segments_contiguous_witness :
    (playNextRun ⟨[], 0⟩ [((0 : ℚ), 1), (1, 1)]).segs = chainSegs 0 [1, 1] ∧
    contiguous (chainSegs (0 : ℚ) [1, 1]) :=
  ⟨scheduled_segments_contiguous.1 0 1 [(1, 1)] (le_refl 0) ⟨by norm_num, trivial⟩,
   scheduled_segments_contiguous.2.2.1 0 [1, 1]⟩

/-- C2 (counterexample): `scheduleAudioBuffer` (voice-assistant.js) never
reads the audio clock: at a state with `nextPlayTime = 1/10` while the
clock reads `1/2`, it schedules the new segment at `1/10`, not at
`max(nextFreeTime, currentAudioClockTime) = 1/2`. -/
theorem scheduleAudioBuffer_ignores_clock_counterexample :
    (scheduleAudioBuffer ⟨[], 1/10⟩ (1/5)).segs = [⟨1/10, 1/5⟩] ∧
    (1 : ℚ)/10 ≠ max ((1 : ℚ)/10) (1/2) := by
  constructor
  · norm_num [scheduleAudioBuffer]
  · rw [max_eq_right (by norm_num : (1 : ℚ)/10 ≤ 1/2)]
    norm_num

/-- C2 (amended): the part_001 engine schedules every segment at
`max(nextFreeTime, currentAudioClockTime)` and then sets
`nextFreeTime = startTime + duration`; the voice-assistant.js
`scheduleAudioBuffer` instead always uses `nextFreeTime` itself, the audio
clock entering only through `startProgressivePlayback`, which initialises
`nextFreeTime` to the current clock when it is 0 (start of a response). -/
theorem schedule_start_time_rule :
    (∀ (st : SchedState) (now dur : ℚ),
      (playNextSchedule st now dur).segs = st.segs ++ [⟨max st.nextPlayTime now, dur⟩] ∧
      (playNextSchedule st now dur).nextPlayTime = max st.nextPlayTime now + dur) ∧
    (∀ (st : SchedState) (dur : ℚ), 0 < dur →
      (scheduleAudioBuffer st dur).segs = st.segs ++ [⟨st.nextPlayTime, dur⟩] ∧
      (scheduleAudioBuffer st dur).nextPlayTime = st.nextPlayTime + dur) ∧
    (∀ (st : SchedState) (now : ℚ), st.nextPlayTime = 0 →
      (startProgressivePlayback st now).nextPlayTime = now) := by
  refine ⟨?_, ?_, ?_⟩
  · intro st now dur
    unfold playNextSchedule
    rcases le_or_lt st.nextPlayTime now with h | h
    · rw [if_neg (not_lt.mpr h), max_eq_right h]
      exact ⟨rfl, rfl⟩
    · rw [if_pos h, max_eq_left (le_of_lt h)]
      exact ⟨rfl, rfl⟩
  · intro st dur hd
    unfold scheduleAudioBuffer
    rw [if_neg (not_le.mpr hd)]
    exact ⟨rfl, rfl⟩
  · intro st now h0
    unfold startProgressivePlayback
    rw [if_pos h0]

/-- C2 (witness): the amended theorem at a concrete schedule call. -/
theorem schedule_start_time_rule_witness :
    (scheduleAudioBuffer ⟨[], 0⟩ 1).segs = ([] : List Seg) ++ [⟨0, 1⟩] ∧
    (scheduleAudioBuffer ⟨[], 0⟩ 1).nextPlayTime = 0 + 1 :=
  schedule_start_time_rule.2.1 ⟨[], 0⟩ 1 (by norm_num)

lemma pcmProcessBlock_spec (block : List ℚ) :
    ∀ st : List ℤ, st.length < 4096 →
      (pcmProcessBlock st block).1.length < 4096 ∧
      (∀ c ∈ (pcmProcessBlock st block).2, c.length = 4096) ∧
      sumLens (pcmProcessBlock st block).2 + (pcmProcessBlock st block).1.length
        = st.length + block.length := by
  induction block with
  | nil =>
    intro st hst
    refine ⟨hst, ?_, ?_⟩ <;> simp [pcmProcessBlock, sumLens]
  | cons s rest ih =>
    intro st hst
    by_cases h : 4096 ≤ (st ++ [quantizeSamplePCM s]).length
    · have hlen : st.length = 4095 := by
        simp only [List.length_append, List.length_cons, List.length_nil] at h
        omega
      obtain ⟨ih1, ih2, ih3⟩ := ih [] (by norm_num)
      simp only [pcmProcessBlock, if_pos h]
      refine ⟨ih1, ?_, ?_⟩
      · intro c hc
        rcases List.mem_cons.mp hc with rfl | hc
        · simp [hlen]
        · exact ih2 c hc
      · simp only [sumLens, List.map_cons, List.sum_cons] at ih3 ⊢
        simp only [List.length_append, List.length_cons, List.length_nil] at *
        omega
    · have hlen : (st ++ [quantizeSamplePCM s]).length < 4096 := by omega
      obtain ⟨ih1, ih2, ih3⟩ := ih (st ++ [quantizeSamplePCM s]) hlen
      simp only [pcmProcessBlock, if_neg h]
      refine ⟨ih1, ih2, ?_⟩
      simp only [List.length_append, List.length_cons, List.length_nil] at ih3 ⊢
      omega

lemma pcmProcessRun_spec (blocks : List (List ℚ)) :
    ∀ st : List ℤ, st.length < 4096 →
      (pcmProcessRun st blocks).1.length < 4096 ∧
      (∀ c ∈ (pcmProcessRun st blocks).2, c.length = 4096) ∧
      sumLens (pcmProcessRun st blocks).2 + (pcmProcessRun st blocks).1.length
        = st.length + (blocks.map List.length).sum := by
  induction blocks with
  | nil =>
    intro st hst
    refine ⟨hst, ?_, ?_⟩ <;> simp [pcmProcessRun, sumLens]
  | cons b bs ih =>
    intro st hst
    obtain ⟨b1, b2, b3⟩ := pcmProcessBlock_spec b st hst
    obtain ⟨r1, r2, r3⟩ := ih (pcmProcessBlock st b).1 b1
    simp only [pcmProcessRun]
    refine ⟨r1, ?_, ?_⟩
    · intro c hc
      rcases List.mem_append.mp hc with hc | hc
      · exact b2 c hc
      · exact r2 c hc
    · simp only [sumLens, List.map_append, List.sum_append, List.map_cons,
        List.sum_cons] at *
      omega

lemma sumLens_const {cs : List (List ℤ)} (h : ∀ c ∈ cs, c.length = 4096) :
    sumLens cs = 4096 * cs.length := by
  induction cs with
  | nil => simp [sumLens]
  | cons c cs ih =>
    have hc : c.length = 4096 := h c (List.mem_cons_self c cs)
    have ih2 := ih (fun x hx => h x (List.mem_cons_of_mem c hx))
    simp only [sumLens, List.map_cons, List.sum_cons, List.length_cons] at ih2 ⊢
    rw [hc, ih2]
    ring

/-- C5 (counterexample): a continuous capture stream of 5000 samples (one
`process` block) emits chunks totalling 4096 samples — the 904 residual
samples stay in the accumulator and are never flushed — so
`Σ chunk_sample_counts ≠ S`, refuting the claimed conservation. -/
theorem capture_chunk_sum_counterexample :
    sumLens (pcmProcessRun [] [List.replicate 5000 (0 : ℚ)]).2 = 4096 ∧
    (4096 : ℕ) ≠ 5000 := by
  obtain ⟨hlt, hall, hsum⟩ := pcmProcessRun_spec [List.replicate 5000 (0 : ℚ)] [] (by norm_num)
  have hmul := sumLens_const hall
  rw [List.map_cons, List.length_replicate, List.map_nil, List.sum_cons,
    List.sum_nil, List.length_nil] at hsum
  refine ⟨?_, by norm_num⟩
  omega

/-- C5 (amended): every emitted OutboundChunk has exactly the configured
4096 samples (the last included — no partial flush exists), and the
emitted chunks account for all captured samples except the residue still
held in the accumulator, which is always < 4096; in particular
`Σ chunk_sample_counts = S` exactly when the residue is 0. -/
theorem capture_chunking_amended :
    ∀ blocks : List (List ℚ),
      (∀ c ∈ (pcmProcessRun [] blocks).2, c.length = 4096) ∧
      (pcmProcessRun [] blocks).1.length < 4096 ∧
      sumLens (pcmProcessRun [] blocks).2 + (pcmProcessRun [] blocks).1.length
        = (blocks.map List.length).sum := by
  intro blocks
  obtain ⟨h1, h2, h3⟩ := pcmProcessRun_spec blocks [] (by norm_num)
  simp only [List.length_nil, Nat.zero_add] at h3
  exact ⟨h2, h1, h3⟩

lemma playNextGroupGo_append :
    ∀ (q : List ℕ) (cnt : ℕ) (acc : ℚ),
      (playNextGroupGo q cnt acc).1 ++ (playNextGroupGo q cnt acc).2 = q := by
  intro q
  induction q with
  | nil => intro cnt acc; simp [playNextGroupGo]
  | cons b rest ih =>
    intro cnt acc
    by_cases h : cnt < 3 ∧ acc < 300
    · simp only [playNextGroupGo, if_pos h, List.cons_append]
      rw [ih (cnt + 1) (acc + chunkDurMs b)]
    · simp [playNextGroupGo, if_neg h]

lemma playNextGroupGo_length :
    ∀ (q : List ℕ) (cnt : ℕ) (acc : ℚ),
      (playNextGroupGo q cnt acc).1.length + cnt ≤ 3 ∨
      (playNextGroupGo q cnt acc).1 = [] := by
  intro q
  induction q with
  | nil => intro cnt acc; right; simp [playNextGroupGo]
  | cons b rest ih =>
    intro cnt acc
    by_cases h : cnt < 3 ∧ acc < 300
    · left
      simp only [playNextGroupGo, if_pos h, List.length_cons]
      rcases ih (cnt + 1) (acc + chunkDurMs b) with hle | hnil
      · omega
      · rw [hnil]
        simp only [List.length_nil]
        omega
    · right
      simp [playNextGroupGo, if_neg h]

lemma playNextGroupGo_duration :
    ∀ (q : List ℕ) (cnt : ℕ) (acc : ℚ),
      (playNextGroupGo q cnt acc).1 ≠ [] →
      acc + durMsSum (playNextGroupGo q cnt acc).1.dropLast < 300 := by
  intro q
  induction q with
  | nil =>
    intro cnt acc hne
    exact absurd rfl hne
  | cons b rest ih =>
    intro cnt acc hne
    by_cases h : cnt < 3 ∧ acc < 300
    · simp only [playNextGroupGo, if_pos h] at hne ⊢
      rcases hg : (playNextGroupGo rest (cnt + 1) (acc + chunkDurMs b)).1 with _ | ⟨c, t⟩
      · simp [hg, durMsSum]
        exact h.2
      · have := ih (cnt + 1) (acc + chunkDurMs b) (by rw [hg]; exact List.cons_ne_nil c t)
        rw [hg] at this
        simp only [hg, List.dropLast_cons₂, durMsSum, List.map_cons, List.sum_cons] at this ⊢
        linarith
    · simp only [playNextGroupGo, if_neg h] at hne
      exact absurd rfl hne

/-- C6 (counterexample): five queued InboundChunks of 8000 bytes each at
24 kHz are estimated at 500/3 ms ≈ 166.7 ms apiece, so the part_001
grouping loop stops after 2 chunks (≈ 333 ms ≥ 300 ms) and drains the
queue in 3 decode calls (2, 2, 1 chunks), not the claimed 2 calls of
3 then 2 chunks. -/
theorem grouping_two_calls_counterexample :
    playNextDrain 5 [8000, 8000, 8000, 8000, 8000] =
      [[8000, 8000], [8000, 8000], [8000]] ∧
    (playNextDrain 5 [8000, 8000, 8000, 8000, 8000]).length ≠ 2 := by
  have h : playNextDrain 5 [8000, 8000, 8000, 8000, 8000] =
      [[8000, 8000], [8000, 8000], [8000]] := by
    norm_num [playNextDrain, playNextGroup, playNextGroupGo, chunkDurMs]
  refine ⟨h, ?_⟩
  rw [h]
  decide

/-- C6 (amended): each decode call of the part_001 engine removes a prefix
of the ingestion queue of at most 3 chunks, stopping as soon as the
estimated duration reaches 300 ms (so every chunk but the last of a group
fits under 300 ms); for Scenario B (five 8000-byte chunks) this yields 3
decode calls grouping 2, 2, 1.  The voice-assistant.js engine bounds
groups by chunk count alone and yields the 2 calls (3 then 2) the claim
describes. -/
theorem chunk_grouping_amended :
    (∀ q : List ℕ, (playNextGroup q).1 ++ (playNextGroup q).2 = q) ∧
    (∀ q : List ℕ, (playNextGroup q).1.length ≤ 3) ∧
    (∀ q : List ℕ, (playNextGroup q).1 ≠ [] →
      durMsSum (playNextGroup q).1.dropLast < 300) ∧
    playNextDrain 5 [8000, 8000, 8000, 8000, 8000] =
      [[8000, 8000], [8000, 8000], [8000]] ∧
    processNextDrain 5 [8000, 8000, 8000, 8000, 8000] =
      [[8000, 8000, 8000], [8000, 8000]] := by
  refine ⟨?_, ?_, ?_, ?_, ?_⟩
  · intro q
    exact playNextGroupGo_append q 0 0
  · intro q
    unfold playNextGroup
    rcases playNextGroupGo_length q 0 0 with h | h
    · omega
    · rw [h]
      simp
  · intro q hne
    unfold playNextGroup at hne ⊢
    have := playNextGroupGo_duration q 0 0 hne
    linarith
  · norm_num [playNextDrain, playNextGroup, playNextGroupGo, chunkDurMs]
  · decide

/-- C6 (witness): the amended theorem applied to the singleton queue. -/
theorem chunk_grouping_witness :
    (playNextGroup [8000]).1 ≠ [] ∧ durMsSum (playNextGroup [8000]).1.dropLast < 300 := by
  have hne : (playNextGroup [8000]).1 ≠ [] := by
    norm_num [playNextGroup, playNextGroupGo]
  exact ⟨hne, chunk_grouping_amended.2.2.1 [8000] hne⟩

/-- C7 (counterexample): the part_002 `interruptModel`, invoked mid-response
(2 segments' worth playing, 4 InboundChunks queued, cooldown clear), emits
zero `interrupt_response` events, not exactly one. -/
theorem interrupt_no_event_counterexample :
    ((interruptModelP002
        ⟨[[1], [2], [3], [4]], true, some ⟨0, 1⟩, true⟩).2.2).count "interrupt_response" = 0 ∧
    (0 : ℕ) ≠ 1 := by
  constructor
  · rfl
  · decide

/-- C7 (amended): the voice-assistant.js `interruptModel` stops every
scheduled or playing segment, empties the ingestion queue and the
active-segment set, resets the playback clock to 0, and — when the
transport is connected — emits exactly one `interrupt_response`; the
part_002 variant performs the local cleanup but emits none.  With both
queues empty and every previous segment stopped, no segment of the
interrupted response can start afterwards. -/
theorem interrupt_effects :
    ∀ (st : VAState) (connected : Bool), connected = true →
      (interruptModel connected st).stopped = st.audioBufferQueue ∧
      (interruptModel connected st).state.audioQueue = [] ∧
      (interruptModel connected st).state.audioBufferQueue = [] ∧
      (interruptModel connected st).state.isPlayingQueue = false ∧
      (interruptModel connected st).state.nextPlayTime = 0 ∧
      ((interruptModel connected st).emitted).count "interrupt_response" = 1 := by
  intro st connected hc
  subst hc
  exact ⟨rfl, rfl, rfl, rfl, rfl, rfl⟩

/-- C7 (witness): the amended theorem at Scenario C's state — 2 scheduled
segments, 4 queued chunks, capture active, connected transport. -/
theorem interrupt_effects_witness :
    (interruptModel true ⟨[[1], [2], [3], [4]], [⟨0, 1⟩, ⟨1, 1⟩], true, 2, false, true⟩).stopped
      = (⟨[[1], [2], [3], [4]], [⟨0, 1⟩, ⟨1, 1⟩], true, 2, false, true⟩ : VAState).audioBufferQueue ∧
    (interruptModel true ⟨[[1], [2], [3], [4]], [⟨0, 1⟩, ⟨1, 1⟩], true, 2, false, true⟩).state.audioQueue = [] ∧
    (interruptModel true ⟨[[1], [2], [3], [4]], [⟨0, 1⟩, ⟨1, 1⟩], true, 2, false, true⟩).state.audioBufferQueue = [] ∧
    (interruptModel true ⟨[[1], [2], [3], [4]], [⟨0, 1⟩, ⟨1, 1⟩], true, 2, false, true⟩).state.isPlayingQueue = false ∧
    (interruptModel true ⟨[[1], [2], [3], [4]], [⟨0, 1⟩, ⟨1, 1⟩], true, 2, false, true⟩).state.nextPlayTime = 0 ∧
    ((interruptModel true ⟨[[1], [2], [3], [4]], [⟨0, 1⟩, ⟨1, 1⟩], true, 2, false, true⟩).emitted).count "interrupt_response" = 1 :=
  interrupt_effects ⟨[[1], [2], [3], [4]], [⟨0, 1⟩, ⟨1, 1⟩], true, 2, false, true⟩ true rfl

/-- C8: `interruptModel` is idempotent on the playback state: a second
invocation (under any connection status) leaves the state of the first
unchanged, finds nothing left to stop, and the clock is exactly 0 after
either call — never negative. -/
theorem interrupt_idempotent :
    ∀ (st : VAState) (c c' : Bool),
      (interruptModel c' (interruptModel c st).state).state = (interruptModel c st).state ∧
      (interruptModel c' (interruptModel c st).state).stopped = [] ∧
      (interruptModel c st).state.nextPlayTime = 0 ∧
      (0 : ℚ) ≤ (interruptModel c' (interruptModel c st).state).state.nextPlayTime := by
  intro st c c'
  exact ⟨rfl, rfl, rfl, le_refl 0⟩

/-- C9 (code bug): on `processing_error`, `handleError` resets all playback
bookkeeping, stops recording and emits no `interrupt_response` — but
because `resetAudioPlayback` clears `audioBufferQueue` BEFORE calling
`stopAudioPlayback`, not a single scheduled source receives `stop()`:
with one segment scheduled, `interruptModel` stops it, `handleError` stops
nothing and the scheduled audio keeps playing. -/
theorem handleError_leaves_sources_playing :
    (handleError true ⟨[[1]], [⟨0, 1⟩], true, 1, false, false⟩).stopped = [] ∧
    (interruptModel true ⟨[[1]], [⟨0, 1⟩], true, 1, false, false⟩).stopped = [⟨0, 1⟩] ∧
    (handleError true ⟨[[1]], [⟨0, 1⟩], true, 1, false, false⟩).state.audioQueue = [] ∧
    (handleError true ⟨[[1]], [⟨0, 1⟩], true, 1, false, false⟩).state.audioBufferQueue = [] ∧
    (handleError true ⟨[[1]], [⟨0, 1⟩], true, 1, false, false⟩).state.nextPlayTime = 0 ∧
    (handleError true ⟨[[1]], [⟨0, 1⟩], true, 1, false, false⟩).state.isRecording = false ∧
    ((handleError true ⟨[[1]], [⟨0, 1⟩], true, 1, false, false⟩).emitted).count "interrupt_response" = 0 :=
  ⟨rfl, rfl, rfl, rfl, rfl, rfl, rfl⟩

lemma b64Value_b64Char {n : ℕ} (h : n < 64) : b64Value (b64Char n) = n := by
  have hall : ∀ v : Fin 64, b64Value (b64Char v.val) = v.val := by decide
  exact hall ⟨n, h⟩

lemma b64Char_ne_pad {n : ℕ} (h : n < 64) : (b64Char n != '=') = true := by
  have hall : ∀ v : Fin 64, (b64Char v.val != '=') = true := by decide
  exact hall ⟨n, h⟩

lemma pad_filter : (('=' : Char) != '=') = false := by decide

/-- C10: decoding (as `handleAudioChunk` does, via `atob` and
`charCodeAt`) the base64 string produced by `arrayBufferToBase64Sync`
recovers exactly the original bytes: the outbound encoding and inbound
decoding form a round-trip identity. -/
theorem base64_roundtrip :
    ∀ bs : List (Fin 256), handleAudioChunkDecode (btoaBytes bs) = bs := by
  intro bs
  unfold handleAudioChunkDecode
  induction bs using btoaBytes.induct with
  | case1 =>
    rfl
  | case2 b0 =>
    have h0 : b0.val / 4 < 64 := by omega
    have h1 : b0.val % 4 * 16 < 64 := by omega
    rw [btoaBytes]
    rw [List.filter_cons_of_pos (by rw [b64Char_ne_pad h0]),
      List.filter_cons_of_pos (by rw [b64Char_ne_pad h1]),
      List.filter_cons_of_neg (by rw [pad_filter]; exact Bool.false_ne_true),
      List.filter_cons_of_neg (by rw [pad_filter]; exact Bool.false_ne_true),
      List.filter_nil]
    show atobQuads [b64Char (b0.val / 4), b64Char (b0.val % 4 * 16)] = [b0]
    rw [atobQuads]
    have hb := b0.isLt
    simp only [List.cons.injEq, and_true]
    apply Fin.ext
    show (b64Value (b64Char (b0.val / 4)) * 4 + b64Value (b64Char (b0.val % 4 * 16)) / 16) % 256
      = b0.val
    rw [b64Value_b64Char h0, b64Value_b64Char h1]
    omega
  | case3 b0 b1 =>
    have h0 : b0.val / 4 < 64 := by omega
    have h1 : b0.val % 4 * 16 + b1.val / 16 < 64 := by
      have := b1.isLt
      omega
    have h2 : b1.val % 16 * 4 < 64 := by omega
    rw [btoaBytes]
    rw [List.filter_cons_of_pos (by rw [b64Char_ne_pad h0]),
      List.filter_cons_of_pos (by rw [b64Char_ne_pad h1]),
      List.filter_cons_of_pos (by rw [b64Char_ne_pad h2]),
      List.filter_cons_of_neg (by rw [pad_filter]; exact Bool.false_ne_true),
      List.filter_nil]
    show atobQuads [b64Char (b0.val / 4), b64Char (b0.val % 4 * 16 + b1.val / 16),
      b64Char (b1.val % 16 * 4)] = [b0, b1]
    rw [atobQuads]
    have hb0 := b0.isLt
    have hb1 := b1.isLt
    simp only [List.cons.injEq, and_true]
    constructor
    · apply Fin.ext
      show (b64Value (b64Char (b0.val / 4)) * 4 +
        b64Value (b64Char (b0.val % 4 * 16 + b1.val / 16)) / 16) % 256 = b0.val
      rw [b64Value_b64Char h0, b64Value_b64Char h1]
      omega
    · apply Fin.ext
      show (b64Value (b64Char (b0.val % 4 * 16 + b1.val / 16)) % 16 * 16 +
        b64Value (b64Char (b1.val % 16 * 4)) / 4) % 256 = b1.val
      rw [b64Value_b64Char h1, b64Value_b64Char h2]
      omega
  | case4 b0 b1 b2 rest ih =>
    have h0 : b0.val / 4 < 64 := by omega
    have h1 : b0.val % 4 * 16 + b1.val / 16 < 64 := by
      have := b1.isLt
      omega
    have h2 : b1.val % 16 * 4 + b2.val / 64 < 64 := by
      have := b2.isLt
      omega
    have h3 : b2.val % 64 < 64 := by omega
    rw [btoaBytes]
    rw [List.filter_cons_of_pos (by rw [b64Char_ne_pad h0]),
      List.filter_cons_of_pos (by rw [b64Char_ne_pad h1]),
      List.filter_cons_of_pos (by rw [b64Char_ne_pad h2]),
      List.filter_cons_of_pos (by rw [b64Char_ne_pad h3])]
    rw [atobQuads]
    have hb0 := b0.isLt
    have hb1 := b1.isLt
    have hb2 := b2.isLt
    simp only [List.cons.injEq]
    refine ⟨?_, ?_, ?_, ih⟩
    · apply Fin.ext
      show (b64Value (b64Char (b0.val / 4)) * 4 +
        b64Value (b64Char (b0.val % 4 * 16 + b1.val / 16)) / 16) % 256 = b0.val
      rw [b64Value_b64Char h0, b64Value_b64Char h1]
      omega
    · apply Fin.ext
      show (b64Value (b64Char (b0.val % 4 * 16 + b1.val / 16)) % 16 * 16 +
        b64Value (b64Char (b1.val % 16 * 4 + b2.val / 64)) / 4) % 256 = b1.val
      rw [b64Value_b64Char h1, b64Value_b64Char h2]
      omega
    · apply Fin.ext
      show (b64Value (b64Char (b1.val % 16 * 4 + b2.val / 64)) % 4 * 64 +
        b64Value (b64Char (b2.val % 64))) % 256 = b2.val
      rw [b64Value_b64Char h2, b64Value_b64Char h3]
      omega

end VoiceAssistant
